import Mathlib

/-!
Verification of the dd-ftm extraction-and-pairing core.

The definitions below are a shallow embedding of the Python modules
`dd_ftm/core/scripts.py`, `dd_ftm/core/extract.py` and `dd_ftm/core/pairs.py`.
Machine integers are modelled as `Nat` with explicit reduction modulo 2^32
where the SHA-256 arithmetic overflows; Python dicts keyed by strings or
characters are modelled as association lists (Python dicts iterate in
insertion order, which association lists preserve); Python `frozenset` is
modelled as `Finset`.
-/

namespace DdFtm

/-! ## SHA-256 (hashlib.sha256), on byte lists, words as `Nat` mod 2^32 -/

/-- Reduce to a 32-bit word. -/
def w32 (n : Nat) : Nat := n % 4294967296

/-- Right-rotate a 32-bit word by `n` bits. -/
def rotr (n x : Nat) : Nat := w32 ((x >>> n) ||| (x <<< (32 - n)))

def smallSigma0 (x : Nat) : Nat := (rotr 7 x) ^^^ (rotr 18 x) ^^^ (x >>> 3)

def smallSigma1 (x : Nat) : Nat := (rotr 17 x) ^^^ (rotr 19 x) ^^^ (x >>> 10)

def bigSigma0 (x : Nat) : Nat := (rotr 2 x) ^^^ (rotr 13 x) ^^^ (rotr 22 x)

def bigSigma1 (x : Nat) : Nat := (rotr 6 x) ^^^ (rotr 11 x) ^^^ (rotr 25 x)

def chFn (x y z : Nat) : Nat := (x &&& y) ^^^ ((x ^^^ 4294967295) &&& z)

def majFn (x y z : Nat) : Nat := (x &&& y) ^^^ (x &&& z) ^^^ (y &&& z)

/-- The 64 SHA-256 round constants (FIPS 180-4, in decimal). -/
def sha256K : List Nat :=
  [1116352408, 1899447441, 3049323471, 3921009573,
   961987163, 1508970993, 2453635748, 2870763221,
   3624381080, 310598401, 607225278, 1426881987,
   1925078388, 2162078206, 2614888103, 3248222580,
   3835390401, 4022224774, 264347078, 604807628,
   770255983, 1249150122, 1555081692, 1996064986,
   2554220882, 2821834349, 2952996808, 3210313671,
   3336571891, 3584528711, 113926993, 338241895,
   666307205, 773529912, 1294757372, 1396182291,
   1695183700, 1986661051, 2177026350, 2456956037,
   2730485921, 2820302411, 3259730800, 3345764771,
   3516065817, 3600352804, 4094571909, 275423344,
   430227734, 506948616, 659060556, 883997877,
   958139571, 1322822218, 1537002063, 1747873779,
   1955562222, 2024104815, 2227730452, 2361852424,
   2428436474, 2756734187, 3204031479, 3329325298]

/-- The SHA-256 compression state: eight 32-bit words. -/
structure Hs where
  a : Nat
  b : Nat
  c : Nat
  d : Nat
  e : Nat
  f : Nat
  g : Nat
  h : Nat

/-- Initial SHA-256 hash value (FIPS 180-4, in decimal). -/
def initH : Hs :=
  ⟨1779033703, 3144134277, 1013904242, 2773480762,
   1359893119, 2600822924, 528734635, 1541459225⟩

/-- One SHA-256 round; `kw` is the round constant plus the schedule word. -/
def sha256Round (s : Hs) (kw : Nat) : Hs :=
  let t1 := w32 (s.h + bigSigma1 s.e + chFn s.e s.f s.g + kw)
  let t2 := w32 (bigSigma0 s.a + majFn s.a s.b s.c)
  ⟨w32 (t1 + t2), s.a, s.b, s.c, w32 (s.d + t1), s.e, s.f, s.g⟩

/-- Extend a 16-word block, appending `n` further message-schedule words. -/
def extendW : Nat → List Nat → List Nat
  | 0, ws => ws
  | n + 1, ws =>
      let i := ws.length
      let word := w32 (smallSigma1 (ws.getD (i - 2) 0) + ws.getD (i - 7) 0 +
                       smallSigma0 (ws.getD (i - 15) 0) + ws.getD (i - 16) 0)
      extendW n (ws ++ [word])

/-- Big-endian bytes of `v`, `n` bytes wide. -/
def beBytes (n v : Nat) : List Nat :=
  (List.range n).map (fun i => v / 256 ^ (n - 1 - i) % 256)

/-- Pack bytes into big-endian 32-bit words. -/
def toWords : List Nat → List Nat
  | b0 :: b1 :: b2 :: b3 :: rest =>
      (b0 * 16777216 + b1 * 65536 + b2 * 256 + b3) :: toWords rest
  | _ => []

/-- Compress one 64-byte block into the running state. -/
def sha256Compress (s : Hs) (block : List Nat) : Hs :=
  let ws := extendW 48 (toWords block)
  let t := (sha256K.zip ws).foldl (fun st kw => sha256Round st (w32 (kw.1 + kw.2))) s
  ⟨w32 (s.a + t.a), w32 (s.b + t.b), w32 (s.c + t.c), w32 (s.d + t.d),
   w32 (s.e + t.e), w32 (s.f + t.f), w32 (s.g + t.g), w32 (s.h + t.h)⟩

/-- Process `fuel` 64-byte blocks off the front of `bs`. -/
def sha256Blocks : Nat → Hs → List Nat → Hs
  | 0, s, _ => s
  | n + 1, s, bs => sha256Blocks n (sha256Compress s (bs.take 64)) (bs.drop 64)

/-- SHA-256 padding for a message of `len` bytes. -/
def sha256Pad (len : Nat) : List Nat :=
  [128] ++ List.replicate ((64 + 55 - (len % 64)) % 64) 0 ++ beBytes 8 (len * 8)

/-- The 32 digest bytes of SHA-256 of a byte list. -/
def sha256bytes (msg : List Nat) : List Nat :=
  let padded := msg ++ sha256Pad msg.length
  let fin := sha256Blocks (padded.length / 64) initH padded
  [fin.a, fin.b, fin.c, fin.d, fin.e, fin.f, fin.g, fin.h].flatMap (beBytes 4)

/-- Lowercase hex digit for `n < 16`. -/
def hexDigit (n : Nat) : Char :=
  if n < 10 then Char.ofNat (48 + n) else Char.ofNat (87 + n)

/-- Lowercase hex string of a byte list (`hexdigest`). -/
def bytesToHex (bs : List Nat) : String :=
  ⟨bs.flatMap (fun b => [hexDigit (b / 16), hexDigit (b % 16)])⟩

/-- `hashlib.sha256(msg).hexdigest()`. -/
def sha256hex (msg : List Nat) : String := bytesToHex (sha256bytes msg)

/-- UTF-8 encoding of one character, as bytes. -/
def utf8Char (c : Char) : List Nat :=
  let n := c.toNat
  if n < 128 then [n]
  else if n < 2048 then [192 + n / 64, 128 + n % 64]
  else if n < 65536 then [224 + n / 4096, 128 + n / 64 % 64, 128 + n % 64]
  else [240 + n / 262144, 128 + n / 4096 % 64, 128 + n / 64 % 64, 128 + n % 64]

/-- `str.encode("utf-8")`: UTF-8 bytes of a string. -/
def utf8Bytes (s : String) : List Nat := s.data.flatMap utf8Char

/-- Python slicing `s[:n]` on strings, as a prefix of the character list. -/
def strTake (s : String) (n : Nat) : String := ⟨s.data.take n⟩

/-! ## Python string primitives

Python compares strings lexicographically by code point, `str.strip()` trims
surrounding whitespace, and `str.split(sep)` cuts at non-overlapping
occurrences of `sep`, left to right.  These are modelled directly on the
character lists so that every definition evaluates by kernel reduction. -/

/-- Code-point lexicographic `<` on character lists (Python string `<`). -/
def charListLT : List Char → List Char → Bool
  | [], [] => false
  | [], _ :: _ => true
  | _ :: _, [] => false
  | a :: as, b :: bs => if a < b then true else if b < a then false else charListLT as bs

/-- Python `a < b` on strings. -/
def pyStrLt (a b : String) : Bool := charListLT a.data b.data

/-- Python `a <= b` on strings: not `b < a`. -/
def pyStrLe (a b : String) : Bool := ! pyStrLt b a

/-- `pyStrLe` as a relation, for the sorting lemmas. -/
def PyLe (a b : String) : Prop := pyStrLe a b = true

instance : DecidableRel PyLe := fun a b => instDecidableEqBool (pyStrLe a b) true

/-- Python `str.strip()`: drop surrounding whitespace from both ends. -/
def pyStrip (s : String) : String :=
  ⟨((s.data.dropWhile Char.isWhitespace).reverse.dropWhile Char.isWhitespace).reverse⟩

/-- The worker of `pySplit`: cut at each leftmost occurrence of `sepl`,
accumulating the current chunk in reverse.  The fuel (initially the input
length, and never exhausted for a nonempty separator) makes the recursion
structural. -/
def pySplitAux (sepl : List Char) : Nat → List Char → List Char → List (List Char)
  | _, [], acc => [acc.reverse]
  | 0, cs, acc => [acc.reverse ++ cs]
  | fuel + 1, c :: cs, acc =>
      if sepl.isPrefixOf (c :: cs) then
        acc.reverse :: pySplitAux sepl fuel ((c :: cs).drop sepl.length) []
      else pySplitAux sepl fuel cs (c :: acc)

/-- Python `str.split(sep)` for a nonempty separator. -/
def pySplit (sep s : String) : List String :=
  (pySplitAux sep.data s.data.length s.data []).map String.mk

theorem charListLT_irrefl : ∀ l, charListLT l l = false
  | [] => rfl
  | a :: as => by simp [charListLT, charListLT_irrefl as]

theorem charListLT_asymm :
    ∀ {l₁ l₂}, charListLT l₁ l₂ = true → charListLT l₂ l₁ = false
  | [], [] => by simp [charListLT]
  | [], _ :: _ => fun _ => rfl
  | _ :: _, [] => by simp [charListLT]
  | a :: as, b :: bs => by
      simp only [charListLT]
      by_cases h1 : a < b
      · simp [h1, lt_asymm h1]
      · by_cases h2 : b < a
        · simp [h1, h2]
        · simp only [h1, h2, if_false]
          exact fun h => charListLT_asymm h

theorem charListLT_connex :
    ∀ {l₁ l₂}, charListLT l₁ l₂ = false → charListLT l₂ l₁ = false → l₁ = l₂
  | [], [] => fun _ _ => rfl
  | [], _ :: _ => by simp [charListLT]
  | _ :: _, [] => by simp [charListLT]
  | a :: as, b :: bs => by
      simp only [charListLT]
      by_cases h1 : a < b
      · simp [h1]
      · by_cases h2 : b < a
        · simp [h1, h2]
        · simp only [h1, h2, if_false]
          intro h h'
          rw [le_antisymm (le_of_not_lt h2) (le_of_not_lt h1),
              charListLT_connex h h']

theorem charListLT_trans :
    ∀ {l₁ l₂ l₃}, charListLT l₁ l₂ = true → charListLT l₂ l₃ = true →
      charListLT l₁ l₃ = true
  | [], [], _ => by simp [charListLT]
  | [], _ :: _, [] => by simp [charListLT]
  | [], _ :: _, _ :: _ => fun _ _ => rfl
  | _ :: _, [], _ => by simp [charListLT]
  | _ :: _, _ :: _, [] => by simp [charListLT]
  | a :: as, b :: bs, c :: cs => by
      simp only [charListLT]
      by_cases hab : a < b
      · by_cases hbc : b < c
        · simp [lt_trans hab hbc]
        · by_cases hcb : c < b
          · simp [hbc, hcb]
          · rw [le_antisymm (le_of_not_lt hcb) (le_of_not_lt hbc)] at hab
            simp [hab]
      · by_cases hba : b < a
        · simp [hab, hba]
        · rw [le_antisymm (le_of_not_lt hba) (le_of_not_lt hab)]
          by_cases hbc : b < c
          · simp [hbc]
          · by_cases hcb : c < b
            · simp [hbc, hcb]
            · simp only [hbc, hcb, lt_self_iff_false, if_false]
              exact fun h h' => charListLT_trans h h'

instance : IsTotal String PyLe :=
  ⟨fun a b => by
    unfold PyLe pyStrLe pyStrLt
    by_cases h : charListLT b.data a.data = true
    · right; simp [charListLT_asymm h]
    · left; simp at h; simp [h]⟩

instance : IsTrans String PyLe :=
  ⟨fun a b c hab hbc => by
    unfold PyLe pyStrLe pyStrLt at *
    simp only [Bool.not_eq_true'] at hab hbc ⊢
    by_cases hca : charListLT c.data a.data = true
    · by_cases hA : charListLT a.data b.data = true
      · exact absurd (charListLT_trans hca hA) (by simp [hbc])
      · simp at hA
        rw [charListLT_connex hA hab] at hca
        exact absurd hca (by simp [hbc])
    · simpa using hca⟩

instance : IsAntisymm String PyLe :=
  ⟨fun a b hab hba => by
    unfold PyLe pyStrLe pyStrLt at hab hba
    simp only [Bool.not_eq_true'] at hab hba
    have : a.data = b.data := charListLT_connex hba hab
    exact congrArg String.mk this⟩

/-! ## scripts.py — Unicode script detection -/

/-- `_SCRIPT_MAP`: first word of `unicodedata.name()` to script label. -/
def scriptMap : List (String × String) :=
  [("LATIN", "Latin"),
   ("CYRILLIC", "Cyrillic"),
   ("ARABIC", "Arabic"),
   ("ARABIC-INDIC", "Arabic"),
   ("CJK", "CJK"),
   ("KANGXI", "CJK"),
   ("IDEOGRAPHIC", "CJK"),
   ("HANGUL", "Hangul"),
   ("DEVANAGARI", "Devanagari"),
   ("HIRAGANA", "Hiragana"),
   ("KATAKANA", "Katakana"),
   ("KATAKANA-HIRAGANA", "Katakana"),
   ("FULLWIDTH", "CJK"),
   ("HALFWIDTH", "CJK"),
   ("THAI", "Thai"),
   ("GEORGIAN", "Georgian"),
   ("ARMENIAN", "Armenian"),
   ("HEBREW", "Hebrew"),
   ("BENGALI", "Bengali"),
   ("GURMUKHI", "Gurmukhi"),
   ("GUJARATI", "Gujarati"),
   ("TAMIL", "Tamil"),
   ("TELUGU", "Telugu"),
   ("KANNADA", "Kannada"),
   ("MALAYALAM", "Malayalam"),
   ("MYANMAR", "Myanmar"),
   ("KHMER", "Khmer"),
   ("TIBETAN", "Tibetan"),
   ("ETHIOPIC", "Ethiopic"),
   ("GREEK", "Greek")]

/-- `dict.get` on a string-keyed association list. -/
def mapGet (m : List (String × String)) (k : String) : Option String :=
  match m.find? (fun p => p.1 == k) with
  | some p => some p.2
  | none => none

/-- Modelled from the spec: the Unicode character database consulted by
`scripts.py` via `str.isalpha()` and `unicodedata.name(ch, "")` — external
runtime data, not repository code. `isAlpha` answers `ch.isalpha()`; `uname`
answers `unicodedata.name(ch, "")`, returning `""` for a nameless character. -/
structure UnicodeData where
  isAlpha : Char → Bool
  uname : Char → String

/-- A Unicode database is well-formed when every alphabetic character has a
(nonempty) character name, as is true of the real Unicode character database. -/
def UnicodeData.WF (u : UnicodeData) : Prop :=
  ∀ ch : Char, u.isAlpha ch = true → u.uname ch ≠ ""

/-- `uname.split()[0]`: the first whitespace-delimited word of a Unicode
character name (returned as `""` on a wordless string, a case `scripts.py`
never meets because Unicode character names are nonempty words; Unicode
character names contain no whitespace other than single spaces). -/
def firstWord (s : String) : String :=
  ((pySplit " " s).filter (fun w => w != "")).headD ""

/-- The uncached body of `_classify_char`: script label for an alphabetic
character, or `none` (the source's locals `uname` and `block` are written
out inline). -/
def classifyCharUncached (u : UnicodeData) (ch : Char) : Option String :=
  if u.isAlpha ch then
    if u.uname ch ≠ "" then
      match mapGet scriptMap (firstWord (u.uname ch)) with
      | some result => some result
      | none => some ("Other(" ++ firstWord (u.uname ch) ++ ")")
    else none
  else none

/-- `_char_cache`: the per-character memo dict, values including the
"no label" outcome (`none`). -/
abbrev CharCache := List (Char × Option String)

/-- `_char_cache.get(ch)`: `none` when the character is absent, otherwise
the stored value (which may itself be `none`). -/
def cacheGet (cache : CharCache) (ch : Char) : Option (Option String) :=
  (cache.find? (fun p => p.1 == ch)).map (fun p => p.2)

/-- `_classify_char` with its memo dict made explicit: returns the label and
the updated cache.  Mirrors the source's three-way flow: a cached non-`None`
value is returned as is; a character cached as `None` replays `None`; an
uncached character is classified and stored. -/
def classify_char (u : UnicodeData) (cache : CharCache) (ch : Char) :
    Option String × CharCache :=
  match cacheGet cache ch with
  | some (some v) => (some v, cache)
  | some none => (none, cache)
  | none =>
      let result := classifyCharUncached u ch
      (result, (ch, result) :: cache)

/-- Cache states reachable from the empty `_char_cache` by prior calls. -/
inductive CacheReachable (u : UnicodeData) : CharCache → Prop
  | nil : CacheReachable u []
  | step (cache : CharCache) (ch : Char) :
      CacheReachable u cache → CacheReachable u (classify_char u cache ch).2

/-- `detect_scripts`, with the uncached classifier: all scripts present in
alphabetic characters of the text. -/
def detect_scripts (u : UnicodeData) (text : String) : Finset String :=
  text.data.foldl
    (fun scripts ch =>
      match classifyCharUncached u ch with
      | some label => insert label scripts
      | none => scripts)
    ∅

/-- `detect_scripts` as the source runs it: threading the memo dict through
`_classify_char` calls, character by character. -/
def detect_scripts_cached (u : UnicodeData) (cache : CharCache) (text : String) :
    Finset String × CharCache :=
  text.data.foldl
    (fun acc ch =>
      match classify_char u acc.2 ch with
      | (some label, cache') => (insert label acc.1, cache')
      | (none, cache') => (acc.1, cache'))
    (∅, cache)

/-- `sorted(s)` on a frozenset of strings: the elements in ascending order.
(Implemented by lifting insertion sort over the underlying multiset, which the
kernel can evaluate; it agrees with `Finset.sort`, see `finSort_eq_sort`.) -/
def finSort (s : Finset String) : List String :=
  Quot.lift (List.insertionSort PyLe)
    (fun l l' h =>
      List.eq_of_perm_of_sorted
        (((List.perm_insertionSort PyLe l).trans h).trans
          (List.perm_insertionSort PyLe l').symm)
        (List.sorted_insertionSort PyLe l) (List.sorted_insertionSort PyLe l'))
    s.1

/-- `next(iter(s))` on a singleton frozenset: its unique element (modelled as
the head of the sorted elements, which for a singleton is that element). -/
def setFirst (s : Finset String) : String :=
  (finSort s).headD "Unknown"

/-- `dominant_script`: collapse a script set to one label.  Python's
`if not scripts` truthiness test is the emptiness test, taken here as
`card = 0`; the source's local `non_latin = scripts - {"Latin"}` is written
out inline. -/
def dominant_script (scripts : Finset String) : String :=
  if scripts.card = 0 then "Unknown"
  else if scripts.card = 1 then setFirst scripts
  else if ¬ (scripts \ {"Latin"}).card = 0 then
    if (scripts \ {"Latin"}).card = 1 then setFirst (scripts \ {"Latin"})
    else (finSort (scripts \ {"Latin"})).headD "Unknown"
  else "Latin"

/-- Modelled from the spec: the slice of the real Unicode character database
covering the characters of the end-to-end scenario (Latin and Cyrillic
letters; the combining acute accent and the space are not alphabetic and so
are absent). Entries carry the formal Unicode character names. -/
def ucdTable : List (Char × String) :=
  [('V', "LATIN CAPITAL LETTER V"), ('P', "LATIN CAPITAL LETTER P"),
   ('a', "LATIN SMALL LETTER A"), ('d', "LATIN SMALL LETTER D"),
   ('i', "LATIN SMALL LETTER I"), ('l', "LATIN SMALL LETTER L"),
   ('m', "LATIN SMALL LETTER M"), ('n', "LATIN SMALL LETTER N"),
   ('r', "LATIN SMALL LETTER R"), ('t', "LATIN SMALL LETTER T"),
   ('u', "LATIN SMALL LETTER U"),
   ('В', "CYRILLIC CAPITAL LETTER VE"), ('П', "CYRILLIC CAPITAL LETTER PE"),
   ('а', "CYRILLIC SMALL LETTER A"), ('д', "CYRILLIC SMALL LETTER DE"),
   ('и', "CYRILLIC SMALL LETTER I"), ('л', "CYRILLIC SMALL LETTER EL"),
   ('м', "CYRILLIC SMALL LETTER EM"), ('н', "CYRILLIC SMALL LETTER EN"),
   ('р', "CYRILLIC SMALL LETTER ER"), ('т', "CYRILLIC SMALL LETTER TE"),
   ('у', "CYRILLIC SMALL LETTER U")]

/-- The concrete Unicode-database sample built from `ucdTable`. -/
def ucdSample : UnicodeData where
  isAlpha := fun ch => (ucdTable.find? (fun p => p.1 == ch)).isSome
  uname := fun ch =>
    match ucdTable.find? (fun p => p.1 == ch) with
    | some p => p.2
    | none => ""

/-! ## extract.py — filtering and name extraction -/

/-- `NameRecord`: one surviving name string attached to an entity. -/
structure NameRecord where
  text : String
  scripts : Finset String
  source_property : String
deriving DecidableEq

/-- `EntityRecord`: one filtered, processed record.  `datasets` is the sorted
intersection with the configured target set (a Python tuple, here a list). -/
structure EntityRecord where
  entity_id : String
  datasets : List String
  names : List NameRecord
deriving DecidableEq

/-- `DEFAULT_SANCTIONS_DATASETS` from datasets.py. -/
def DEFAULT_SANCTIONS_DATASETS : Finset String :=
  {"adb_sanctions", "ae_local_terrorists", "afdb_sanctions", "at_nbter_sanctions",
   "au_dfat_sanctions", "az_fiu_sanctions", "be_fod_sanctions",
   "ca_dfatd_sema_sanctions", "ch_seco_sanctions", "cn_sanctions",
   "cz_national_sanctions", "cz_terrorists", "ee_international_sanctions",
   "eg_terrorists", "eu_cor_members", "eu_fsf", "eu_journal_sanctions",
   "eu_sanctions_map", "ext_us_ofac_press_releases", "gb_fcdo_sanctions",
   "gb_hmt_sanctions", "iadb_sanctions", "il_mod_terrorists", "il_wmd_sanctions",
   "ir_sanctions", "jo_sanctions", "jp_mof_sanctions", "kg_fiu_national",
   "kz_afmrk_sanctions", "lt_fiu_freezes", "lv_fiu_sanctions", "mc_fund_freezes",
   "md_terror_sanctions", "my_moha_sanctions", "ng_nigsac_sanctions",
   "nl_terrorism_list", "np_mha_sanctions", "nz_russia_sanctions",
   "ph_amlc_sanctions", "pl_finanse_sanctions", "pl_mswia_sanctions",
   "qa_nctc_sanctions", "ro_onpcsb_sanctions", "ru_mfa_sanctions",
   "sg_terrorists", "th_designated_person", "ua_nsdc_sanctions",
   "ua_war_sanctions", "un_sc_sanctions", "us_bis_denied", "us_ofac_cons",
   "us_ofac_enforcement_actions", "us_ofac_sdn", "us_trade_csl",
   "za_fic_sanctions"}

/-- `ExtractionConfig`, with the source's defaults. -/
structure ExtractionConfig where
  schema_filter : String := "Person"
  name_properties : List String := ["name", "alias", "previousName", "weakAlias"]
  sanctions_datasets : Option (Finset String) := none
  split_separator : String := " / "
  min_name_length : Nat := 2

/-- `effective_datasets`: the configured set, defaulting to
`DEFAULT_SANCTIONS_DATASETS`. -/
def ExtractionConfig.effective_datasets (c : ExtractionConfig) : Finset String :=
  c.sanctions_datasets.getD DEFAULT_SANCTIONS_DATASETS

/-- `props.get(prop_key, [])` on the properties dict. -/
def propsGet (props : List (String × List String)) (k : String) : List String :=
  match props.find? (fun p => p.1 == k) with
  | some p => p.2
  | none => []

/-- `raw_value.split(separator) if separator else [raw_value]`. -/
def splitParts (sep raw : String) : List String :=
  if sep ≠ "" then pySplit sep raw else [raw]

/-- The scan order of `_clean_names` flattened: configured properties in
declared order, then raw-value order, then split order, each part paired with
the property it came from. -/
def scanParts (config : ExtractionConfig) (props : List (String × List String)) :
    List (String × String) :=
  config.name_properties.flatMap (fun pk =>
    (propsGet props pk).flatMap (fun raw =>
      (splitParts config.split_separator raw).map (fun part => (pk, part))))

/-- The loop body of `_clean_names` over the flattened scan order, carrying
the `seen_texts` set and the accumulated records. -/
def cleanLoop (u : UnicodeData) (config : ExtractionConfig) :
    List (String × String) → List String → List NameRecord → List NameRecord
  | [], _, records => records
  | (pk, part) :: rest, seen, records =>
      if (pyStrip part).length < config.min_name_length then
        cleanLoop u config rest seen records
      else if ¬ (pyStrip part).data.any u.isAlpha then
        cleanLoop u config rest seen records
      else if seen.contains (pyStrip part) then
        cleanLoop u config rest seen records
      else
        cleanLoop u config rest (pyStrip part :: seen)
          (records ++ [⟨pyStrip part, detect_scripts u (pyStrip part), pk⟩])

/-- `_clean_names`: extract, clean, split, and deduplicate names. -/
def clean_names (u : UnicodeData) (props : List (String × List String))
    (config : ExtractionConfig) : List NameRecord :=
  cleanLoop u config (scanParts config props) [] []

/-- The post-trim scan entries that pass the length and alphabetic filters, in
scan order, still carrying their property tag. -/
def validParts (u : UnicodeData) (config : ExtractionConfig)
    (props : List (String × List String)) : List (String × String) :=
  ((scanParts config props).map (fun pp => (pp.1, pyStrip pp.2))).filter
    (fun pp => decide (config.min_name_length ≤ pp.2.length) && pp.2.data.any u.isAlpha)

/-- One parsed input line of the FtM JSONL stream, after JSON decoding: id,
schema tag, dataset memberships, and the properties map. -/
structure RawEntity where
  id : String
  schema : String
  datasets : List String
  properties : List (String × List String)

/-- The per-record body of `stream_entities` (the surrounding file read and
JSON parse are I/O and are not modelled): schema filter, dataset-overlap
filter, name extraction, and the empty-names drop. -/
def processEntity (u : UnicodeData) (config : ExtractionConfig) (e : RawEntity) :
    Option EntityRecord :=
  if e.schema ≠ config.schema_filter then none
  else
    let entity_ds := e.datasets.toFinset
    let inter := entity_ds ∩ config.effective_datasets
    if inter.card = 0 then none
    else
      let names := clean_names u e.properties config
      if names = [] then none
      else some ⟨e.id, finSort inter, names⟩

/-! ## pairs.py — candidate pair generation -/

/-- `NamePair`: one output pair for one entity. -/
structure NamePair where
  pair_id : String
  entity_id : String
  name_a : String
  script_a : String
  property_a : String
  name_b : String
  script_b : String
  property_b : String
  pair_category : String
  source_datasets : List String
deriving DecidableEq

/-- `PairConfig`, with the source's defaults.  `per_entity_cap` is a Python
int, modelled as `Int` so the `budget <= 0` comparison keeps its meaning. -/
structure PairConfig where
  per_entity_cap : Int := 100
  rng_seed : Nat := 42
  include_categories : Finset String := {"cross_script", "latin_latin", "non_latin"}

/-- `_make_pair_id`: truncated SHA-256 of entity id + canonical name pair. -/
def make_pair_id (entity_id name_a name_b : String) : String :=
  let payload := entity_id ++ "\x00" ++ name_a ++ "\x00" ++ name_b
  strTake (sha256hex (utf8Bytes payload)) 16

/-- `_classify_pair`: classify a pair based on dominant scripts. -/
def classify_pair (dom_a dom_b : String) : String :=
  if dom_a = dom_b then
    if dom_a = "Latin" then "latin_latin" else "non_latin"
  else "cross_script"

/-- Python tuple comparison `(a1, a2) <= (b1, b2)` on string pairs. -/
def pyKeyLE (ka kb : String × String) : Bool :=
  pyStrLt ka.1 kb.1 || (ka.1 == kb.1 && pyStrLe ka.2 kb.2)

/-- `_canonical_order`: cross-script with a Latin side puts Latin first;
otherwise order by the `(dominant_script, text)` tuple ascending. -/
def canonical_order (nr_a : NameRecord) (dom_a : String) (nr_b : NameRecord)
    (dom_b : String) (category : String) :
    NameRecord × String × NameRecord × String :=
  if category = "cross_script" ∧ dom_a = "Latin" then (nr_a, dom_a, nr_b, dom_b)
  else if category = "cross_script" ∧ dom_b = "Latin" then (nr_b, dom_b, nr_a, dom_a)
  else if pyKeyLE (dom_a, nr_a.text) (dom_b, nr_b.text) then (nr_a, dom_a, nr_b, dom_b)
  else (nr_b, dom_b, nr_a, dom_a)

/-- `itertools.combinations(names, 2)`: all unordered 2-combinations in
source order. -/
def combinations2 : List NameRecord → List (NameRecord × NameRecord)
  | [] => []
  | x :: xs => (xs.map (fun y => (x, y))) ++ combinations2 xs

/-- Build the `NamePair` the loop body of `_generate_entity_pairs` emits for
one classified combination. -/
def mkNamePair (entity : EntityRecord) (nr_a : NameRecord) (dom_a : String)
    (nr_b : NameRecord) (dom_b : String) (category : String) : NamePair :=
  let c := canonical_order nr_a dom_a nr_b dom_b category
  { pair_id := make_pair_id entity.entity_id c.1.text c.2.2.1.text
    entity_id := entity.entity_id
    name_a := c.1.text
    script_a := c.2.1
    property_a := c.1.source_property
    name_b := c.2.2.1.text
    script_b := c.2.2.2
    property_b := c.2.2.1.source_property
    pair_category := category
    source_datasets := entity.datasets }

/-- The classified, canonicalized pairs surviving the category filter, in
combination order (the loop over `combinations(names, 2)`). -/
def classifiedPairs (entity : EntityRecord) (config : PairConfig) : List NamePair :=
  (combinations2 entity.names).filterMap (fun pr =>
    let dom_a := dominant_script pr.1.scripts
    let dom_b := dominant_script pr.2.scripts
    let category := classify_pair dom_a dom_b
    if category ∈ config.include_categories then
      some (mkNamePair entity pr.1 dom_a pr.2 dom_b category)
    else none)

/-- `by_category[tier]`: the source appends each surviving pair to its
category's bucket in combination order, which is the order-preserving filter
of the classified pairs by `pair_category`. -/
def byCategory (entity : EntityRecord) (config : PairConfig) (tier : String) :
    List NamePair :=
  (classifiedPairs entity config).filter (fun p => p.pair_category == tier)

/-- Interpret a lowercase hex digit character. -/
def hexVal (c : Char) : Nat :=
  if c.isDigit then c.toNat - 48 else c.toNat - 87

/-- `int(hexstring, 16)` on a lowercase hex string. -/
def hexToNat (s : String) : Nat :=
  s.data.foldl (fun acc c => acc * 16 + hexVal c) 0

/-- The per-entity RNG seed: the configured global seed XORed with the integer
value of the first 8 hex digits of SHA-256 of the entity id. -/
def entity_seed (config : PairConfig) (entity_id : String) : Nat :=
  let entity_hash := hexToNat (strTake (sha256hex (utf8Bytes entity_id)) 8)
  config.rng_seed ^^^ entity_hash

/-- One iteration of the capping loop over a category tier: skip an empty
tier or an exhausted budget; keep the whole tier when it fits; otherwise
shuffle and keep exactly the remaining budget, zeroing it. -/
def capTier (shuffle : List NamePair → List NamePair) (candidates : List NamePair)
    (st : List NamePair × Int) : List NamePair × Int :=
  if candidates = [] ∨ st.2 ≤ 0 then st
  else if (candidates.length : Int) ≤ st.2 then
    (st.1 ++ candidates, st.2 - candidates.length)
  else (st.1 ++ (shuffle candidates).take st.2.toNat, 0)

/-- `_generate_entity_pairs`.  `shuffle` abstracts `random.Random(seed).shuffle`
(modelled from the spec: a deterministic, seedable permutation of the list —
the Mersenne Twister itself is runtime library code, not repository code);
it receives the entity-derived seed.  At most one tier ever shuffles, because
a truncating tier zeroes the budget and later tiers are skipped, so passing
the same seeded generator to each tier is observationally faithful. -/
def generate_entity_pairs (shuffle : Nat → List NamePair → List NamePair)
    (entity : EntityRecord) (config : PairConfig) : List NamePair :=
  if entity.names.length < 2 then []
  else
    let seed := entity_seed config entity.entity_id
    (capTier (shuffle seed) (byCategory entity config "non_latin")
      (capTier (shuffle seed) (byCategory entity config "latin_latin")
        (capTier (shuffle seed) (byCategory entity config "cross_script")
          ([], config.per_entity_cap)))).1

/-- Modelled from the spec: the process-level interpreter state a run executes
under — in particular the per-process string-hash randomization salt that a
`hash()`-derived seed would have depended on.  The source derives its seeds
from SHA-256 instead, so no definition below reads this state. -/
structure PyEnv where
  hashSalt : Nat

/-- `generate_pairs`: within-entity name pairs across all entities, run under
a process environment `env`. -/
def generate_pairs (env : PyEnv) (shuffle : Nat → List NamePair → List NamePair)
    (entities : List EntityRecord) (config : PairConfig) : List NamePair :=
  entities.flatMap (fun entity => generate_entity_pairs shuffle entity config)

/-! ## Concrete scenario data (the spec's end-to-end example) -/

/-- The end-to-end scenario's input entity, as parsed from its JSON line. -/
def e1 : RawEntity :=
  { id := "e1", schema := "Person", datasets := ["us_ofac_sdn"],
    properties := [("name", ["Vladimir Putin"]), ("alias", ["Влади́мир Пу́тин"])] }

/-- The `EntityRecord` the pipeline produces for `e1` (the alias keeps its
combining acute accents: `_clean_names` only strips whitespace). -/
def er1 : EntityRecord :=
  { entity_id := "e1", datasets := ["us_ofac_sdn"],
    names := [⟨"Vladimir Putin", {"Latin"}, "name"⟩,
              ⟨"Влади́мир Пу́тин", {"Cyrillic"}, "alias"⟩] }

/-- The single `NamePair` generated for `er1`. -/
def pair1 : NamePair :=
  { pair_id := "112e53045595931d", entity_id := "e1",
    name_a := "Vladimir Putin", script_a := "Latin", property_a := "name",
    name_b := "Влади́мир Пу́тин", script_b := "Cyrillic", property_b := "alias",
    pair_category := "cross_script", source_datasets := ["us_ofac_sdn"] }

/-- A Cyrillic-dominant name record, for the cross-script-without-Latin case. -/
def nrCyr : NameRecord := ⟨"Путин", {"Cyrillic"}, "name"⟩

/-- An Arabic-dominant name record, for the cross-script-without-Latin case. -/
def nrAra : NameRecord := ⟨"بوتين", {"Arabic"}, "alias"⟩

/-- Coherence of a classification cache: every stored entry holds the value
the uncached classifier computes. -/
def CacheCoherent (u : UnicodeData) (cache : CharCache) : Prop :=
  ∀ p ∈ cache, p.2 = classifyCharUncached u p.1

/-! ## Helper lemmas -/

theorem beBytes_length (n v : Nat) : (beBytes n v).length = n := by
  simp [beBytes]

theorem beBytes_lt (n v : Nat) : ∀ x ∈ beBytes n v, x < 256 := by
  intro x hx
  simp only [beBytes, List.mem_map, List.mem_range] at hx
  obtain ⟨i, _, rfl⟩ := hx
  exact Nat.mod_lt _ (by norm_num)

theorem sha256bytes_length (msg : List Nat) : (sha256bytes msg).length = 32 := by
  simp [sha256bytes, beBytes_length]

theorem sha256bytes_lt (msg : List Nat) : ∀ x ∈ sha256bytes msg, x < 256 := by
  intro x hx
  simp only [sha256bytes, List.mem_flatMap] at hx
  obtain ⟨w, _, hw⟩ := hx
  exact beBytes_lt 4 w x hw

theorem hexDigit_spec :
    ∀ n, n < 16 → (hexDigit n).isDigit = true ∨ ('a' ≤ hexDigit n ∧ hexDigit n ≤ 'f') := by
  decide

theorem flatMapHex_length :
    ∀ bs : List Nat,
      (bs.flatMap (fun b => [hexDigit (b / 16), hexDigit (b % 16)])).length = 2 * bs.length
  | [] => rfl
  | b :: t => by
      rw [List.flatMap_cons, List.length_append, flatMapHex_length t]
      simp only [List.length_cons, List.length_nil]
      omega

theorem bytesToHex_length (bs : List Nat) :
    (bytesToHex bs).length = 2 * bs.length := flatMapHex_length bs

theorem bytesToHex_mem (bs : List Nat) (hlt : ∀ x ∈ bs, x < 256) :
    ∀ c ∈ (bytesToHex bs).data, c.isDigit = true ∨ ('a' ≤ c ∧ c ≤ 'f') := by
  intro c hc
  simp only [bytesToHex, List.mem_flatMap, List.mem_cons, List.mem_singleton] at hc
  obtain ⟨b, hb, hc⟩ := hc
  have hb256 : b < 256 := hlt b hb
  rcases hc with h | h | h
  · exact h ▸ hexDigit_spec (b / 16) (by omega)
  · exact h ▸ hexDigit_spec (b % 16) (by omega)
  · cases h

theorem strTake_length (s : String) (n : Nat) :
    (strTake s n).length = min n s.length := List.length_take n s.data

/-- C8 — `pair_id` is the first 16 hex characters of the SHA-256 digest of the
UTF-8 bytes of `entity_id + NUL + name_a + NUL + name_b`; it is 16 characters
long and all of them are lowercase hex digits. -/
theorem c8_pair_id (entity_id name_a name_b : String) :
    make_pair_id entity_id name_a name_b
      = strTake (sha256hex (utf8Bytes (entity_id ++ "\x00" ++ name_a ++ "\x00" ++ name_b))) 16
    ∧ (make_pair_id entity_id name_a name_b).length = 16
    ∧ ∀ c ∈ (make_pair_id entity_id name_a name_b).data,
        c.isDigit = true ∨ ('a' ≤ c ∧ c ≤ 'f') := by
  refine ⟨rfl, ?_, ?_⟩
  · rw [make_pair_id, strTake_length, sha256hex, bytesToHex_length, sha256bytes_length]
    norm_num
  · intro c hc
    have hc' : c ∈ (sha256hex (utf8Bytes
        (entity_id ++ "\x00" ++ name_a ++ "\x00" ++ name_b))).data :=
      List.take_subset 16 _ hc
    exact bytesToHex_mem _ (sha256bytes_lt _) c hc'

theorem pyStrLt_irrefl (a : String) : pyStrLt a a = false :=
  charListLT_irrefl a.data

theorem pyStrLt_asymm {a b : String} (h : pyStrLt a b = true) : pyStrLt b a = false :=
  charListLT_asymm h

theorem pyStrEq_of {a b : String} (h1 : pyStrLt a b = false) (h2 : pyStrLt b a = false) :
    a = b :=
  congrArg String.mk (charListLT_connex h1 h2)

theorem pyKeyLE_total (ka kb : String × String) (h : pyKeyLE ka kb = false) :
    pyKeyLE kb ka = true := by
  unfold pyKeyLE at h ⊢
  rw [Bool.or_eq_false_iff] at h
  by_cases hlt : pyStrLt kb.1 ka.1 = true
  · simp [hlt]
  · rw [Bool.not_eq_true] at hlt
    have heq : ka.1 = kb.1 := pyStrEq_of h.1 hlt
    rw [Bool.and_eq_false_iff] at h
    rcases h.2 with h2 | h2
    · exact absurd (beq_iff_eq.mpr heq) (by simp [h2])
    · have hlt2 : pyStrLt kb.2 ka.2 = true := by
        have := h2
        unfold pyStrLe at this
        simpa using this
      have hle : pyStrLe kb.2 ka.2 = true := by
        unfold pyStrLe
        simp [pyStrLt_asymm hlt2]
      simp [hlt, heq, hle]

theorem pyKeyLE_antisymm (ka kb : String × String) (h1 : pyKeyLE ka kb = true)
    (h2 : pyKeyLE kb ka = true) : ka = kb := by
  unfold pyKeyLE at h1 h2
  by_cases hab : pyStrLt ka.1 kb.1 = true
  · exfalso
    rw [Bool.or_eq_true_iff] at h2
    rcases h2 with h2 | h2
    · exact absurd h2 (by simp [pyStrLt_asymm hab])
    · rw [Bool.and_eq_true] at h2
      have : kb.1 = ka.1 := beq_iff_eq.mp h2.1
      rw [this] at hab
      exact absurd hab (by simp [pyStrLt_irrefl])
  · rw [Bool.not_eq_true] at hab
    rw [Bool.or_eq_true_iff] at h1
    rcases h1 with h1 | h1
    · exact absurd h1 (by simp [hab])
    · rw [Bool.and_eq_true] at h1
      have heq : ka.1 = kb.1 := beq_iff_eq.mp h1.1
      have hba : pyStrLt kb.1 ka.1 = false := heq ▸ pyStrLt_irrefl ka.1
      rw [Bool.or_eq_true_iff] at h2
      rcases h2 with h2 | h2
      · exact absurd h2 (by simp [hba])
      · rw [Bool.and_eq_true] at h2
        have hle1 : pyStrLt kb.2 ka.2 = false := by
          have := h1.2
          unfold pyStrLe at this
          simpa using this
        have hle2 : pyStrLt ka.2 kb.2 = false := by
          have := h2.2
          unfold pyStrLe at this
          simpa using this
        have := pyStrEq_of hle2 hle1
        exact Prod.ext heq this

theorem canon_fallback (A B : NameRecord) (dA dB cat : String)
    (h1 : ¬(cat = "cross_script" ∧ dA = "Latin"))
    (h2 : ¬(cat = "cross_script" ∧ dB = "Latin")) :
    (canonical_order A dA B dB cat).1.text = (canonical_order B dB A dA cat).1.text
    ∧ (canonical_order A dA B dB cat).2.1 = (canonical_order B dB A dA cat).2.1
    ∧ (canonical_order A dA B dB cat).2.2.1.text = (canonical_order B dB A dA cat).2.2.1.text
    ∧ (canonical_order A dA B dB cat).2.2.2 = (canonical_order B dB A dA cat).2.2.2 := by
  unfold canonical_order
  rw [if_neg h1, if_neg h2, if_neg h1, if_neg h2]
  by_cases hk : pyKeyLE (dA, A.text) (dB, B.text) = true
  · by_cases hk' : pyKeyLE (dB, B.text) (dA, A.text) = true
    · have hpair := pyKeyLE_antisymm _ _ hk hk'
      have hd : dA = dB := congrArg Prod.fst hpair
      have ht : A.text = B.text := congrArg Prod.snd hpair
      rw [if_pos hk, if_pos hk']
      exact ⟨ht, hd, ht.symm, hd.symm⟩
    · rw [if_pos hk, if_neg hk']
      exact ⟨rfl, rfl, rfl, rfl⟩
  · have hk2 := pyKeyLE_total _ _ (by simpa using hk)
    rw [if_neg hk, if_pos hk2]
    exact ⟨rfl, rfl, rfl, rfl⟩

/-- C2 — canonicalizing `(A, B)` and `(B, A)`, with dominant scripts and the
pair category computed the same way in both orders, yields the same ordered
`(name_a, name_b)` output (with the same side scripts) and the same
`pair_id`. -/
theorem c2_canonical_symmetry (A B : NameRecord) (eid : String) :
    let dA := dominant_script A.scripts
    let dB := dominant_script B.scripts
    let cat := classify_pair dA dB
    let f := canonical_order A dA B dB cat
    let g := canonical_order B dB A dA cat
    f.1.text = g.1.text ∧ f.2.1 = g.2.1
    ∧ f.2.2.1.text = g.2.2.1.text ∧ f.2.2.2 = g.2.2.2
    ∧ make_pair_id eid f.1.text f.2.2.1.text = make_pair_id eid g.1.text g.2.2.1.text := by
  intro dA dB cat f g
  have main : f.1.text = g.1.text ∧ f.2.1 = g.2.1
      ∧ f.2.2.1.text = g.2.2.1.text ∧ f.2.2.2 = g.2.2.2 := by
    by_cases hd : dA = dB
    · have hcat : cat ≠ "cross_script" := by
        show classify_pair dA dB ≠ "cross_script"
        unfold classify_pair
        rw [if_pos hd]
        by_cases hl : dA = "Latin"
        · rw [if_pos hl]; decide
        · rw [if_neg hl]; decide
      exact canon_fallback A B dA dB cat (fun h => hcat h.1) (fun h => hcat h.1)
    · have hcat : cat = "cross_script" := by
        show classify_pair dA dB = "cross_script"
        unfold classify_pair
        rw [if_neg hd]
      by_cases hA : dA = "Latin"
      · have hB : dB ≠ "Latin" := fun h => hd (hA.trans h.symm)
        have hf : f = (A, dA, B, dB) := by
          show canonical_order A dA B dB cat = _
          unfold canonical_order
          rw [if_pos ⟨hcat, hA⟩]
        have hg : g = (A, dA, B, dB) := by
          show canonical_order B dB A dA cat = _
          unfold canonical_order
          rw [if_neg (fun h => hB h.2), if_pos ⟨hcat, hA⟩]
        rw [hf, hg]
        exact ⟨rfl, rfl, rfl, rfl⟩
      · by_cases hB : dB = "Latin"
        · have hf : f = (B, dB, A, dA) := by
            show canonical_order A dA B dB cat = _
            unfold canonical_order
            rw [if_neg (fun h => hA h.2), if_pos ⟨hcat, hB⟩]
          have hg : g = (B, dB, A, dA) := by
            show canonical_order B dB A dA cat = _
            unfold canonical_order
            rw [if_pos ⟨hcat, hB⟩]
          rw [hf, hg]
          exact ⟨rfl, rfl, rfl, rfl⟩
        · exact canon_fallback A B dA dB cat (fun h => hA h.2) (fun h => hB h.2)
  refine ⟨main.1, main.2.1, main.2.2.1, main.2.2.2, ?_⟩
  rw [main.1, main.2.2.1]

/-- Witness for C8 at the scenario's concrete pair. -/
theorem c8_pair_id_witness :
    make_pair_id "e1" "Vladimir Putin" "Влади́мир Пу́тин"
      = strTake (sha256hex (utf8Bytes
          ("e1" ++ "\x00" ++ "Vladimir Putin" ++ "\x00" ++ "Влади́мир Пу́тин"))) 16
    ∧ ('1'.isDigit = true ∨ ('a' ≤ '1' ∧ '1' ≤ 'f')) :=
  ⟨(c8_pair_id "e1" "Vladimir Putin" "Влади́мир Пу́тин").1,
   (c8_pair_id "e1" "Vladimir Putin" "Влади́мир Пу́тин").2.2 '1' (by decide)⟩

theorem PyLe_refl (a : String) : PyLe a a := by
  unfold PyLe pyStrLe
  simp [pyStrLt_irrefl]

theorem finSort_mem (s : Finset String) (a : String) : a ∈ finSort s ↔ a ∈ s := by
  rw [Finset.mem_def]
  unfold finSort
  generalize s.1 = m
  induction m using Quotient.inductionOn with
  | h l => exact ((List.perm_insertionSort PyLe l).mem_iff).trans Multiset.mem_coe.symm

theorem finSort_sorted (s : Finset String) : List.Sorted PyLe (finSort s) := by
  unfold finSort
  generalize s.1 = m
  induction m using Quotient.inductionOn with
  | h l => exact List.sorted_insertionSort PyLe l

theorem finSort_singleton (x : String) : finSort {x} = [x] := rfl

theorem setFirst_singleton (x : String) : setFirst {x} = x := by
  unfold setFirst
  rw [finSort_singleton]
  rfl

theorem dominant_singleton (x : String) : dominant_script {x} = x := by
  unfold dominant_script
  simp [setFirst_singleton]

theorem finSort_head_min (s : Finset String) (h : s.Nonempty) :
    (finSort s).headD "Unknown" ∈ s
    ∧ ∀ y ∈ s, pyStrLe ((finSort s).headD "Unknown") y = true := by
  cases hl : finSort s with
  | nil =>
      exfalso
      obtain ⟨a, ha⟩ := h
      have := (finSort_mem s a).mpr ha
      rw [hl] at this
      cases this
  | cons hd tl =>
      have hsorted := finSort_sorted s
      rw [hl] at hsorted
      constructor
      · have : hd ∈ finSort s := by rw [hl]; exact List.mem_cons_self hd tl
        simpa using (finSort_mem s hd).mp this
      · intro y hy
        have hy' : y ∈ finSort s := (finSort_mem s y).mpr hy
        rw [hl] at hy'
        rcases List.mem_cons.mp hy' with rfl | hyt
        · exact PyLe_refl y
        · exact (List.sorted_cons.mp hsorted).1 y hyt

/-- C4 — `dominant_script` follows the stated precedence: empty set gives
"Unknown"; a singleton gives its element; removing "Latin" leaving one label
gives that label; leaving several gives the alphabetically smallest; a
Latin-only set gives "Latin"; and the quoted concrete evaluations hold.  The
function is total by construction. -/
theorem c4_dominant_script (S : Finset String) :
    (S = ∅ → dominant_script S = "Unknown")
    ∧ (∀ x, S = {x} → dominant_script S = x)
    ∧ (∀ x, S \ {"Latin"} = {x} → dominant_script S = x)
    ∧ (1 < (S \ {"Latin"}).card →
        dominant_script S ∈ S \ {"Latin"}
        ∧ ∀ y ∈ S \ {"Latin"}, pyStrLe (dominant_script S) y = true)
    ∧ (S.Nonempty → S \ {"Latin"} = ∅ → dominant_script S = "Latin")
    ∧ dominant_script {"Latin"} = "Latin"
    ∧ dominant_script {"Latin", "Cyrillic"} = "Cyrillic"
    ∧ dominant_script {"Cyrillic", "Arabic"} = "Arabic"
    ∧ dominant_script (∅ : Finset String) = "Unknown" := by
  refine ⟨?_, ?_, ?_, ?_, ?_, by decide, by decide, by decide, by decide⟩
  · rintro rfl
    decide
  · rintro x rfl
    exact dominant_singleton x
  · intro x h
    have hx : x ∈ S \ {"Latin"} := h ▸ Finset.mem_singleton_self x
    have hxS : x ∈ S := (Finset.mem_sdiff.mp hx).1
    by_cases hc : S.card = 1
    · obtain ⟨y, hy⟩ := Finset.card_eq_one.mp hc
      have hxy : x = y := by
        rw [hy] at hxS
        exact Finset.mem_singleton.mp hxS
      rw [hy, ← hxy]
      exact dominant_singleton x
    · have h0 : S.card ≠ 0 := Finset.card_ne_zero_of_mem hxS
      unfold dominant_script
      rw [if_neg h0, if_neg hc, h]
      simp [setFirst_singleton]
  · intro h1
    have hsub : (S \ {"Latin"}).card ≤ S.card := Finset.card_le_card (Finset.sdiff_subset)
    have h0 : S.card ≠ 0 := by omega
    have hc : S.card ≠ 1 := by omega
    have hne : ¬ (S \ {"Latin"}).card = 0 := by omega
    have hne1 : ¬ (S \ {"Latin"}).card = 1 := by omega
    unfold dominant_script
    rw [if_neg h0, if_neg hc, if_pos hne, if_neg hne1]
    exact finSort_head_min (S \ {"Latin"}) (Finset.card_pos.mp (by omega))
  · intro hne hd
    by_cases hc : S.card = 1
    · obtain ⟨y, hy⟩ := Finset.card_eq_one.mp hc
      have hyL : y = "Latin" := by
        have hsub := Finset.sdiff_eq_empty_iff_subset.mp hd
        have : y ∈ ({"Latin"} : Finset String) := hsub (hy ▸ Finset.mem_singleton_self y)
        exact Finset.mem_singleton.mp this
      rw [hy, hyL]
      exact dominant_singleton "Latin"
    · have h0 : S.card ≠ 0 := Finset.card_ne_zero_of_mem hne.choose_spec
      unfold dominant_script
      rw [if_neg h0, if_neg hc, if_neg (by simp [hd])]

/-- Witness for C4: the Latin-plus-Cyrillic clause at its concrete input. -/
theorem c4_dominant_script_witness :
    dominant_script {"Latin", "Cyrillic"} = "Cyrillic" :=
  (c4_dominant_script {"Latin", "Cyrillic"}).2.2.1 "Cyrillic" (by decide)


/-- C5 counterexample — a Cyrillic-dominant vs Arabic-dominant pair is
`cross_script` with neither side Latin-dominant, and `_canonical_order`
resolves it through the alphabetical `(dominant_script, text)` fallback
(Arabic first), so the fallback branch is not dead code. -/
theorem c5_counterexample :
    classify_pair (dominant_script nrCyr.scripts) (dominant_script nrAra.scripts)
      = "cross_script"
    ∧ ¬ (dominant_script nrCyr.scripts = "Latin" ∨ dominant_script nrAra.scripts = "Latin")
    ∧ canonical_order nrCyr (dominant_script nrCyr.scripts) nrAra
        (dominant_script nrAra.scripts) "cross_script"
        = (nrAra, "Arabic", nrCyr, "Cyrillic") :=
  ⟨by decide, by decide, by rfl⟩

/-- C5 amended — for a `cross_script` pair at most one side is
Latin-dominant; when a Latin side exists the Latin-first branches apply and
the alphabetical fallback is bypassed; but cross-script pairs with no
Latin-dominant side exist (see the counterexample) and take the fallback, so
the fallback branch is not dead code for the category. -/
theorem c5_amended (A B : NameRecord)
    (h : classify_pair (dominant_script A.scripts) (dominant_script B.scripts)
      = "cross_script") :
    ¬ (dominant_script A.scripts = "Latin" ∧ dominant_script B.scripts = "Latin")
    ∧ (dominant_script A.scripts = "Latin" →
        canonical_order A (dominant_script A.scripts) B (dominant_script B.scripts)
          "cross_script"
          = (A, dominant_script A.scripts, B, dominant_script B.scripts))
    ∧ (dominant_script A.scripts ≠ "Latin" → dominant_script B.scripts = "Latin" →
        canonical_order A (dominant_script A.scripts) B (dominant_script B.scripts)
          "cross_script"
          = (B, dominant_script B.scripts, A, dominant_script A.scripts)) := by
  have hd : dominant_script A.scripts ≠ dominant_script B.scripts := by
    intro he
    unfold classify_pair at h
    rw [if_pos he] at h
    by_cases hl : dominant_script A.scripts = "Latin"
    · rw [if_pos hl] at h
      exact absurd h (by decide)
    · rw [if_neg hl] at h
      exact absurd h (by decide)
  refine ⟨fun hboth => hd (hboth.1.trans hboth.2.symm), ?_, ?_⟩
  · intro hA
    unfold canonical_order
    rw [if_pos ⟨rfl, hA⟩]
  · intro hA hB
    unfold canonical_order
    rw [if_neg (fun hh => hA hh.2), if_pos ⟨rfl, hB⟩]

/-- Witness for the amended C5 at a concrete Latin/Cyrillic pair. -/
theorem c5_amended_witness :
    ¬ (dominant_script ({"Latin"} : Finset String) = "Latin"
       ∧ dominant_script ({"Cyrillic"} : Finset String) = "Latin") :=
  (c5_amended ⟨"Vladimir Putin", {"Latin"}, "name"⟩ nrCyr (by decide)).1

theorem ucdTable_vals : ∀ p ∈ ucdTable, p.2 ≠ "" := by decide

/-- The concrete Unicode-database sample is well-formed: every alphabetic
character in it has a nonempty character name. -/
theorem ucdSample_wf : ucdSample.WF := by
  intro ch h
  have h' : (ucdTable.find? (fun p => p.1 == ch)).isSome = true := h
  rw [Option.isSome_iff_exists] at h'
  obtain ⟨p, hp⟩ := h'
  show (match ucdTable.find? (fun q => q.1 == ch) with
        | some q => q.2
        | none => "") ≠ ""
  rw [hp]
  exact ucdTable_vals p (List.mem_of_find?_eq_some hp)

/-- C6 — over a well-formed character database, `_classify_char`'s uncached
body returns `none` exactly on non-alphabetic characters, and on an
alphabetic character returns the table's label for the first word of the
character's Unicode name, falling back to `Other(<block-prefix>)` when the
word is unmapped; it is total by construction. -/
theorem c6_classify_char (u : UnicodeData) (hwf : u.WF) (ch : Char) :
    (classifyCharUncached u ch = none ↔ u.isAlpha ch = false)
    ∧ (u.isAlpha ch = true →
        classifyCharUncached u ch = some (
          match mapGet scriptMap (firstWord (u.uname ch)) with
          | some lbl => lbl
          | none => "Other(" ++ firstWord (u.uname ch) ++ ")")) := by
  by_cases ha : u.isAlpha ch = true
  · have hn : u.uname ch ≠ "" := hwf ch ha
    constructor
    · constructor
      · intro h
        exfalso
        unfold classifyCharUncached at h
        rw [if_pos ha, if_pos hn] at h
        cases hm : mapGet scriptMap (firstWord (u.uname ch)) with
        | some r => rw [hm] at h; cases h
        | none => rw [hm] at h; cases h
      · intro h
        rw [ha] at h
        cases h
    · intro _
      unfold classifyCharUncached
      rw [if_pos ha, if_pos hn]
      cases hm : mapGet scriptMap (firstWord (u.uname ch)) with
      | some r => rfl
      | none => rfl
  · have ha' : u.isAlpha ch = false := by simpa using ha
    constructor
    · constructor
      · intro _
        exact ha'
      · intro _
        unfold classifyCharUncached
        rw [if_neg (by simp [ha'])]
    · intro h
      rw [h] at ha'
      cases ha'

/-- Witness for C6 at the character `a` of the sample database. -/
theorem c6_classify_char_witness :
    classifyCharUncached ucdSample 'a' = some (
      match mapGet scriptMap (firstWord (ucdSample.uname 'a')) with
      | some lbl => lbl
      | none => "Other(" ++ firstWord (ucdSample.uname 'a') ++ ")") :=
  (c6_classify_char ucdSample ucdSample_wf 'a').2 (by decide)


theorem classify_char_coherent (u : UnicodeData) (cache : CharCache) (ch : Char)
    (hc : CacheCoherent u cache) :
    (classify_char u cache ch).1 = classifyCharUncached u ch
    ∧ CacheCoherent u (classify_char u cache ch).2 := by
  unfold classify_char
  cases hget : cacheGet cache ch with
  | none =>
      refine ⟨rfl, ?_⟩
      intro p hp
      rcases List.mem_cons.mp hp with rfl | hp'
      · rfl
      · exact hc p hp'
  | some v =>
      unfold cacheGet at hget
      cases hf : cache.find? (fun p => p.1 == ch) with
      | none =>
          rw [hf] at hget
          cases hget
      | some q =>
          rw [hf] at hget
          have hq2 : q.2 = v := Option.some.inj (by simpa using hget)
          have hqch : q.1 = ch := by
            have := List.find?_some hf
            simpa using this
          have hcoh := hc q (List.mem_of_find?_eq_some hf)
          rw [hqch, hq2] at hcoh
          cases v with
          | some lbl => exact ⟨hcoh, hc⟩
          | none => exact ⟨hcoh, hc⟩

theorem cacheReachable_coherent (u : UnicodeData) (cache : CharCache)
    (hr : CacheReachable u cache) : CacheCoherent u cache := by
  induction hr with
  | nil => intro p hp; cases hp
  | step cache ch _ ih => exact (classify_char_coherent u cache ch ih).2

theorem detect_fold_eq (u : UnicodeData) :
    ∀ (cs : List Char) (acc : Finset String) (cache : CharCache),
      CacheCoherent u cache →
      (cs.foldl (fun a ch =>
          match classify_char u a.2 ch with
          | (some label, cache') => (insert label a.1, cache')
          | (none, cache') => (a.1, cache')) (acc, cache)).1
        = cs.foldl (fun scripts ch =>
            match classifyCharUncached u ch with
            | some label => insert label scripts
            | none => scripts) acc
  | [], _, _, _ => rfl
  | ch :: cs, acc, cache, hc => by
      have h1 := classify_char_coherent u cache ch hc
      rcases hcc : classify_char u cache ch with ⟨r, cache'⟩
      have hru : classifyCharUncached u ch = r := by rw [← h1.1, hcc]
      have hc' : CacheCoherent u cache' := by
        have h2 := h1.2
        rw [hcc] at h2
        exact h2
      rw [List.foldl_cons, List.foldl_cons]
      cases r with
      | some lbl =>
          simp only [hcc, hru]
          exact detect_fold_eq u cs (insert lbl acc) cache' hc'
      | none =>
          simp only [hcc, hru]
          exact detect_fold_eq u cs acc cache' hc'

theorem detect_scripts_cached_eq (u : UnicodeData) (cache : CharCache) (text : String)
    (hc : CacheCoherent u cache) :
    (detect_scripts_cached u cache text).1 = detect_scripts u text :=
  detect_fold_eq u text.data ∅ cache hc

/-- C10 — the per-character memo is observationally transparent: from any
cache state reachable by prior calls, `_classify_char` returns what the
uncached computation returns (including replayed `none` outcomes), the
resulting state is again reachable, and `detect_scripts` (hence
`dominant_script` of its result) is independent of call history. -/
theorem c10_memo_transparent (u : UnicodeData) (cache : CharCache) (ch : Char)
    (text : String) (hr : CacheReachable u cache) :
    (classify_char u cache ch).1 = classifyCharUncached u ch
    ∧ CacheReachable u (classify_char u cache ch).2
    ∧ (detect_scripts_cached u cache text).1 = detect_scripts u text
    ∧ dominant_script (detect_scripts_cached u cache text).1
        = dominant_script (detect_scripts u text) := by
  have hc := cacheReachable_coherent u cache hr
  exact ⟨(classify_char_coherent u cache ch hc).1,
         CacheReachable.step cache ch hr,
         detect_scripts_cached_eq u cache text hc,
         by rw [detect_scripts_cached_eq u cache text hc]⟩

/-- Witness for C10 from the empty (initial) cache. -/
theorem c10_memo_transparent_witness :
    (classify_char ucdSample [] 'a').1 = classifyCharUncached ucdSample 'a'
    ∧ (detect_scripts_cached ucdSample [] "ab").1 = detect_scripts ucdSample "ab" :=
  ⟨(c10_memo_transparent ucdSample [] 'a' "ab" CacheReachable.nil).1,
   (c10_memo_transparent ucdSample [] 'a' "ab" CacheReachable.nil).2.2.1⟩


/-- C3 — pair generation is deterministic: the run is a pure function of the
entity sequence and the configuration.  The process environment `env` (which
carries the per-process string-hash randomization salt) is never consulted,
so two runs under different salts agree exactly — on the full output, on the
`pair_id` sequence, and on the `(name_a, name_b, pair_category)` assignments;
the sampling step depends only on the shuffle algorithm's behaviour (two
pointwise-equal generators give identical output); and the per-entity seed is
derived from the configured seed and SHA-256 of the entity id, not from any
salted hash. -/
theorem c3_determinism (shuffle : Nat → List NamePair → List NamePair)
    (entities : List EntityRecord) (config : PairConfig) (env₁ env₂ : PyEnv) :
    generate_pairs env₁ shuffle entities config = generate_pairs env₂ shuffle entities config
    ∧ (generate_pairs env₁ shuffle entities config).map (fun p => p.pair_id)
        = (generate_pairs env₂ shuffle entities config).map (fun p => p.pair_id)
    ∧ (generate_pairs env₁ shuffle entities config).map
          (fun p => (p.name_a, p.name_b, p.pair_category))
        = (generate_pairs env₂ shuffle entities config).map
          (fun p => (p.name_a, p.name_b, p.pair_category))
    ∧ (∀ shuffle' : Nat → List NamePair → List NamePair,
        (∀ sd l, shuffle sd l = shuffle' sd l) →
        generate_pairs env₁ shuffle entities config
          = generate_pairs env₂ shuffle' entities config)
    ∧ (∀ eid : String, entity_seed config eid
        = config.rng_seed ^^^ hexToNat (strTake (sha256hex (utf8Bytes eid)) 8)) := by
  refine ⟨rfl, rfl, rfl, ?_, fun _ => rfl⟩
  intro shuffle' h
  have hs : shuffle = shuffle' := funext (fun sd => funext (fun l => h sd l))
  rw [hs]
  rfl

/-- Witness for C3: two runs under distinct hash salts on the scenario
entity, with pointwise-equal generators. -/
theorem c3_determinism_witness :
    generate_pairs ⟨0⟩ (fun _ l => l) [er1] {} = generate_pairs ⟨1⟩ (fun _ l => l) [er1] {} :=
  (c3_determinism (fun _ l => l) [er1] {} ⟨0⟩ ⟨1⟩).2.2.2.1 (fun _ l => l) (fun _ _ => rfl)


theorem capTier_spec (sh : List NamePair → List NamePair) (cand : List NamePair)
    (st : List NamePair × Int) (hb : 0 ≤ st.2)
    (hlen : (sh cand).length = cand.length) :
    (capTier sh cand st).1.length = st.1.length + min cand.length st.2.toNat
    ∧ (capTier sh cand st).2 = st.2 - min cand.length st.2.toNat := by
  unfold capTier
  by_cases hc : cand = []
  · rw [if_pos (Or.inl hc)]
    subst hc
    simp
  · by_cases hb0 : st.2 ≤ 0
    · rw [if_pos (Or.inr hb0)]
      have hz : st.2 = 0 := le_antisymm hb0 hb
      rw [hz]
      simp
    · rw [if_neg (fun hor => hor.elim hc hb0)]
      by_cases hfit : (cand.length : Int) ≤ st.2
      · rw [if_pos hfit]
        dsimp only
        rw [List.length_append]
        constructor
        · congr 1
          omega
        · omega
      · rw [if_neg hfit]
        dsimp only
        rw [List.length_append, List.length_take, hlen]
        constructor
        · omega
        · omega

theorem capTier_mono (sh : List NamePair → List NamePair) (cand : List NamePair)
    (st : List NamePair × Int) (p : NamePair) (hp : p ∈ st.1) :
    p ∈ (capTier sh cand st).1 := by
  unfold capTier
  split_ifs with h1 h2
  · exact hp
  · exact List.mem_append_left _ hp
  · exact List.mem_append_left _ hp

theorem capTier_mem_src (sh : List NamePair → List NamePair) (cand : List NamePair)
    (st : List NamePair × Int) (hperm : List.Perm (sh cand) cand) (q : NamePair)
    (hq : q ∈ (capTier sh cand st).1) : q ∈ st.1 ∨ (q ∈ cand ∧ 0 < st.2) := by
  unfold capTier at hq
  split_ifs at hq with h1 h2
  · exact Or.inl hq
  · rcases List.mem_append.mp hq with h | h
    · exact Or.inl h
    · push_neg at h1
      exact Or.inr ⟨h, by omega⟩
  · rcases List.mem_append.mp hq with h | h
    · exact Or.inl h
    · push_neg at h1
      exact Or.inr ⟨hperm.mem_iff.mp (List.take_subset _ _ h), by omega⟩

theorem capTier_budget_le (sh : List NamePair → List NamePair) (cand : List NamePair)
    (st : List NamePair × Int) : (capTier sh cand st).2 ≤ st.2 := by
  unfold capTier
  split_ifs with h1 h2
  · exact le_refl _
  · dsimp only
    omega
  · dsimp only
    push_neg at h1
    omega

theorem capTier_keep_all (sh : List NamePair → List NamePair) (cand : List NamePair)
    (st : List NamePair × Int) (h : 0 < (capTier sh cand st).2) :
    (∀ p ∈ cand, p ∈ (capTier sh cand st).1) ∧ 0 < st.2 := by
  unfold capTier at h ⊢
  split_ifs at h ⊢ with h1 h2
  · constructor
    · intro p hp
      rcases h1 with hc | hb
      · subst hc
        cases hp
      · omega
    · exact h
  · constructor
    · intro p hp
      exact List.mem_append_right _ hp
    · push_neg at h1
      omega
  · dsimp only at h
    omega

theorem classifiedPairs_cat (entity : EntityRecord) (config : PairConfig) :
    ∀ p ∈ classifiedPairs entity config,
      p.pair_category = "cross_script" ∨ p.pair_category = "latin_latin"
      ∨ p.pair_category = "non_latin" := by
  intro p hp
  unfold classifiedPairs at hp
  rw [List.mem_filterMap] at hp
  obtain ⟨pr, _, hf⟩ := hp
  dsimp only at hf
  by_cases hin : classify_pair (dominant_script pr.1.scripts) (dominant_script pr.2.scripts)
      ∈ config.include_categories
  · rw [if_pos hin] at hf
    have hp' : p = mkNamePair entity pr.1 (dominant_script pr.1.scripts) pr.2
        (dominant_script pr.2.scripts)
        (classify_pair (dominant_script pr.1.scripts) (dominant_script pr.2.scripts)) :=
      (Option.some.inj hf).symm
    have hcat : p.pair_category
        = classify_pair (dominant_script pr.1.scripts) (dominant_script pr.2.scripts) := by
      rw [hp']
      rfl
    rw [hcat]
    unfold classify_pair
    split_ifs <;> simp
  · rw [if_neg hin] at hf
    cases hf

theorem byCategory_cat (entity : EntityRecord) (config : PairConfig) (tier : String) :
    ∀ p ∈ byCategory entity config tier, p.pair_category = tier := by
  intro p hp
  unfold byCategory at hp
  rw [List.mem_filter] at hp
  exact beq_iff_eq.mp hp.2

theorem length_three_filter (l : List NamePair)
    (h : ∀ p ∈ l, p.pair_category = "cross_script" ∨ p.pair_category = "latin_latin"
        ∨ p.pair_category = "non_latin") :
    (l.filter (fun p => p.pair_category == "cross_script")).length
      + (l.filter (fun p => p.pair_category == "latin_latin")).length
      + (l.filter (fun p => p.pair_category == "non_latin")).length = l.length := by
  induction l with
  | nil => rfl
  | cons a t ih =>
      have ht := ih (fun p hp => h p (List.mem_cons_of_mem a hp))
      have ha := h a (List.mem_cons_self a t)
      rw [List.filter_cons, List.filter_cons, List.filter_cons]
      rcases ha with ha | ha | ha
      · rw [if_pos (by simp [ha]), if_neg (by simp [ha]), if_neg (by simp [ha]),
            List.length_cons, List.length_cons]
        omega
      · rw [if_neg (by simp [ha]), if_pos (by simp [ha]), if_neg (by simp [ha]),
            List.length_cons, List.length_cons]
        omega
      · rw [if_neg (by simp [ha]), if_neg (by simp [ha]), if_pos (by simp [ha]),
            List.length_cons, List.length_cons]
        omega

/-- C1 — for a nonnegative cap and a permutation-producing shuffle, the
number of emitted pairs equals `min(per_entity_cap, classified pairs)`; and
under truncation no cross-script pair is dropped while a lower-priority pair
is kept, and no latin-latin pair is dropped while a non-latin pair is kept. -/
theorem c1_cap_invariant (shuffle : Nat → List NamePair → List NamePair)
    (entity : EntityRecord) (config : PairConfig)
    (hcap : 0 ≤ config.per_entity_cap)
    (hperm : ∀ sd l, List.Perm (shuffle sd l) l) :
    (generate_entity_pairs shuffle entity config).length
        = min config.per_entity_cap.toNat (classifiedPairs entity config).length
    ∧ ((∃ q ∈ generate_entity_pairs shuffle entity config,
          q.pair_category ≠ "cross_script") →
        ∀ p ∈ byCategory entity config "cross_script",
          p ∈ generate_entity_pairs shuffle entity config)
    ∧ ((∃ q ∈ generate_entity_pairs shuffle entity config,
          q.pair_category = "non_latin") →
        ∀ p ∈ byCategory entity config "latin_latin",
          p ∈ generate_entity_pairs shuffle entity config) := by
  by_cases hn : entity.names.length < 2
  · have hgen : generate_entity_pairs shuffle entity config = [] := by
      unfold generate_entity_pairs
      rw [if_pos hn]
    have hcomb : combinations2 entity.names = [] := by
      cases hl : entity.names with
      | nil => rfl
      | cons x t =>
          cases t with
          | nil => rfl
          | cons y t2 =>
              rw [hl] at hn
              exact absurd hn (by simp)
    have hclass : classifiedPairs entity config = [] := by
      unfold classifiedPairs
      rw [hcomb]
      rfl
    rw [hgen, hclass]
    refine ⟨by simp, ?_, ?_⟩
    · rintro ⟨q, hq, _⟩
      cases hq
    · rintro ⟨q, hq, _⟩
      cases hq
  · have hgen : generate_entity_pairs shuffle entity config
        = (capTier (shuffle (entity_seed config entity.entity_id))
            (byCategory entity config "non_latin")
            (capTier (shuffle (entity_seed config entity.entity_id))
              (byCategory entity config "latin_latin")
              (capTier (shuffle (entity_seed config entity.entity_id))
                (byCategory entity config "cross_script")
                ([], config.per_entity_cap)))).1 := by
      unfold generate_entity_pairs
      rw [if_neg hn]
    rw [hgen]
    set sd := entity_seed config entity.entity_id with hsd
    set cross := byCategory entity config "cross_script" with hcrossdef
    set lat := byCategory entity config "latin_latin" with hlatdef
    set non := byCategory entity config "non_latin" with hnondef
    set st1 := capTier (shuffle sd) cross ([], config.per_entity_cap) with hst1
    set st2 := capTier (shuffle sd) lat st1 with hst2
    set st3 := capTier (shuffle sd) non st2 with hst3
    have h1 := capTier_spec (shuffle sd) cross ([], config.per_entity_cap) hcap
      (hperm sd cross).length_eq
    have hb1 : 0 ≤ st1.2 := by
      rw [hst1, h1.2]
      dsimp only
      omega
    have h2 := capTier_spec (shuffle sd) lat st1 hb1 (hperm sd lat).length_eq
    have hb2 : 0 ≤ st2.2 := by
      rw [hst2, h2.2]
      omega
    have h3 := capTier_spec (shuffle sd) non st2 hb2 (hperm sd non).length_eq
    have hsum : cross.length + lat.length + non.length
        = (classifiedPairs entity config).length :=
      length_three_filter (classifiedPairs entity config) (classifiedPairs_cat entity config)
    refine ⟨?_, ?_, ?_⟩
    · rw [← hst3] at h3
      rw [← hst2] at h2
      rw [← hst1] at h1
      have e1 := h1.1
      have e1b := h1.2
      have e2 := h2.1
      have e2b := h2.2
      have e3 := h3.1
      dsimp only at e1 e1b
      simp only [List.length_nil] at e1
      clear h1 h2 h3
      clear_value sd cross lat non st1 st2 st3
      omega
    · rintro ⟨q, hq, hqcat⟩ p hp
      rcases capTier_mem_src (shuffle sd) non st2 (hperm sd non) q hq
        with hq2 | ⟨_, hb2pos⟩
      · rcases capTier_mem_src (shuffle sd) lat st1 (hperm sd lat) q hq2
          with hq1 | ⟨_, hb1pos⟩
        · rcases capTier_mem_src (shuffle sd) cross ([], config.per_entity_cap)
            (hperm sd cross) q hq1 with hq0 | ⟨hqcross, _⟩
          · cases hq0
          · exact absurd (byCategory_cat entity config "cross_script" q hqcross) hqcat
        · have hall := (capTier_keep_all (shuffle sd) cross ([], config.per_entity_cap)
            hb1pos).1
          exact capTier_mono (shuffle sd) non st2 p
            (capTier_mono (shuffle sd) lat st1 p (hall p hp))
      · have hb1pos : 0 < st1.2 :=
          lt_of_lt_of_le hb2pos (capTier_budget_le (shuffle sd) lat st1)
        have hall := (capTier_keep_all (shuffle sd) cross ([], config.per_entity_cap)
          hb1pos).1
        exact capTier_mono (shuffle sd) non st2 p
          (capTier_mono (shuffle sd) lat st1 p (hall p hp))
    · rintro ⟨q, hq, hqcat⟩ p hp
      rcases capTier_mem_src (shuffle sd) non st2 (hperm sd non) q hq
        with hq2 | ⟨_, hb2pos⟩
      · rcases capTier_mem_src (shuffle sd) lat st1 (hperm sd lat) q hq2
          with hq1 | ⟨hqlat, _⟩
        · rcases capTier_mem_src (shuffle sd) cross ([], config.per_entity_cap)
            (hperm sd cross) q hq1 with hq0 | ⟨hqcross, _⟩
          · cases hq0
          · rw [byCategory_cat entity config "cross_script" q hqcross] at hqcat
            exact absurd hqcat (by decide)
        · rw [byCategory_cat entity config "latin_latin" q hqlat] at hqcat
          exact absurd hqcat (by decide)
      · have hall := (capTier_keep_all (shuffle sd) lat st1 hb2pos).1
        exact capTier_mono (shuffle sd) non st2 p (hall p hp)

/-- Witness for C1 on the scenario entity with the identity permutation. -/
theorem c1_cap_invariant_witness :
    (generate_entity_pairs (fun _ l => l) er1 {}).length
      = min (100 : Int).toNat (classifiedPairs er1 {}).length :=
  (c1_cap_invariant (fun _ l => l) er1 {} (by decide) (fun _ l => List.Perm.refl l)).1


theorem cleanLoop_append (u : UnicodeData) (config : ExtractionConfig) :
    ∀ (parts : List (String × String)) (seen : List String) (records : List NameRecord),
      cleanLoop u config parts seen records = records ++ cleanLoop u config parts seen []
  | [], seen, records => by
      unfold cleanLoop
      simp
  | (pk, part) :: rest, seen, records => by
      unfold cleanLoop
      by_cases h1 : (pyStrip part).length < config.min_name_length
      · rw [if_pos h1, if_pos h1]
        exact cleanLoop_append u config rest seen records
      · rw [if_neg h1, if_neg h1]
        by_cases h2 : ¬ (pyStrip part).data.any u.isAlpha = true
        · rw [if_pos h2, if_pos h2]
          exact cleanLoop_append u config rest seen records
        · rw [if_neg h2, if_neg h2]
          by_cases h3 : seen.contains (pyStrip part) = true
          · rw [if_pos h3, if_pos h3]
            exact cleanLoop_append u config rest seen records
          · rw [if_neg h3, if_neg h3]
            rw [cleanLoop_append u config rest (pyStrip part :: seen)]
            conv_rhs => rw [cleanLoop_append u config rest (pyStrip part :: seen)]
            simp

theorem cleanLoop_filter_seen (u : UnicodeData) (config : ExtractionConfig) :
    ∀ (parts : List (String × String)) (seen : List String) (t : String),
      seen.contains t = true →
      (cleanLoop u config parts seen []).filter (fun r => r.text == t) = []
  | [], _, _, _ => rfl
  | (pk, part) :: rest, seen, t, hseen => by
      unfold cleanLoop
      by_cases h1 : (pyStrip part).length < config.min_name_length
      · rw [if_pos h1]
        exact cleanLoop_filter_seen u config rest seen t hseen
      · rw [if_neg h1]
        by_cases h2 : ¬ (pyStrip part).data.any u.isAlpha = true
        · rw [if_pos h2]
          exact cleanLoop_filter_seen u config rest seen t hseen
        · rw [if_neg h2]
          by_cases h3 : seen.contains (pyStrip part) = true
          · rw [if_pos h3]
            exact cleanLoop_filter_seen u config rest seen t hseen
          · rw [if_neg h3]
            have htne : ¬ (pyStrip part == t) = true := by
              intro he
              exact h3 (beq_iff_eq.mp he ▸ hseen)
            have hseen' : (pyStrip part :: seen).contains t = true := by
              simp only [List.contains_cons]
              rw [hseen]
              simp
            rw [cleanLoop_append u config rest (pyStrip part :: seen)]
            rw [List.filter_append]
            rw [cleanLoop_filter_seen u config rest (pyStrip part :: seen) t hseen']
            simp [htne]

theorem cleanLoop_filter_found (u : UnicodeData) (config : ExtractionConfig) :
    ∀ (parts : List (String × String)) (seen : List String) (p t : String),
      ((parts.map (fun pp => (pp.1, pyStrip pp.2))).filter
        (fun pp => decide (config.min_name_length ≤ pp.2.length)
          && pp.2.data.any u.isAlpha)).find? (fun pp => pp.2 == t) = some (p, t) →
      seen.contains t = false →
      (cleanLoop u config parts seen []).filter (fun r => r.text == t)
        = [⟨t, detect_scripts u t, p⟩]
  | [], _, p, t, hfind, _ => by cases hfind
  | (pk, part) :: rest, seen, p, t, hfind, hseen => by
      rw [List.map_cons, List.filter_cons] at hfind
      dsimp only at hfind
      unfold cleanLoop
      by_cases hval : (decide (config.min_name_length ≤ (pyStrip part).length)
          && (pyStrip part).data.any u.isAlpha) = true
      · rw [if_pos hval] at hfind
        have hval' := hval
        rw [Bool.and_eq_true] at hval'
        have hlen : ¬ (pyStrip part).length < config.min_name_length := by
          have := of_decide_eq_true hval'.1
          omega
        have halpha : (pyStrip part).data.any u.isAlpha = true := hval'.2
        rw [if_neg hlen, if_neg (not_not_intro halpha)]
        by_cases hteq : ((pyStrip part : String) == t) = true
        · rw [List.find?_cons_of_pos _ (by simpa using hteq)] at hfind
          have hinj := Option.some.inj hfind
          have hp1 : pk = p := congrArg Prod.fst hinj
          have hp2 : pyStrip part = t := congrArg Prod.snd hinj
          rw [if_neg (by rw [hp2, hseen]; exact Bool.false_ne_true)]
          have hseen' : (pyStrip part :: seen).contains t = true := by
            simp only [List.contains_cons]
            rw [hp2]
            simp
          rw [cleanLoop_append u config rest (pyStrip part :: seen)]
          rw [List.filter_append]
          rw [cleanLoop_filter_seen u config rest (pyStrip part :: seen) t hseen']
          rw [List.nil_append, List.filter_cons]
          rw [if_pos (by simpa using hteq)]
          rw [hp1, hp2]
          simp
        · rw [List.find?_cons_of_neg _ (by simpa using hteq)] at hfind
          by_cases h3 : seen.contains (pyStrip part) = true
          · rw [if_pos h3]
            exact cleanLoop_filter_found u config rest seen p t hfind hseen
          · rw [if_neg h3]
            have hne : pyStrip part ≠ t := by simpa using hteq
            have hseen' : (pyStrip part :: seen).contains t = false := by
              simp only [List.contains_cons]
              rw [hseen]
              simp only [Bool.or_false]
              rw [Bool.eq_false_iff]
              intro he
              exact hne (beq_iff_eq.mp he).symm
            rw [cleanLoop_append u config rest (pyStrip part :: seen)]
            rw [List.filter_append]
            rw [cleanLoop_filter_found u config rest (pyStrip part :: seen) p t hfind hseen']
            have hne' : ¬ (pyStrip part == t) = true := by simpa using hne
            simp [hne']
      · rw [if_neg hval] at hfind
        by_cases hl : (pyStrip part).length < config.min_name_length
        · rw [if_pos hl]
          exact cleanLoop_filter_found u config rest seen p t hfind hseen
        · have ha : ¬ (pyStrip part).data.any u.isAlpha = true := by
            intro hal
            apply hval
            rw [Bool.and_eq_true]
            exact ⟨decide_eq_true (by omega), hal⟩
          rw [if_neg hl, if_pos ha]
          exact cleanLoop_filter_found u config rest seen p t hfind hseen

/-- C9 — if a post-trim text `t` survives the length and alphabetic filters
and its first occurrence in scan order (properties in configured order, then
raw-value order, then split order) carries property `p`, then `_clean_names`
emits exactly one NameRecord with text `t`, tagged with `p`; later duplicates,
from any property, are discarded. -/
theorem c9_dedup (u : UnicodeData) (config : ExtractionConfig)
    (props : List (String × List String)) (p t : String)
    (h : (validParts u config props).find? (fun pp => pp.2 == t) = some (p, t)) :
    (clean_names u props config).filter (fun r => r.text == t)
      = [⟨t, detect_scripts u t, p⟩] :=
  cleanLoop_filter_found u config (scanParts config props) [] p t h rfl

/-- Witness for C9: the same name under two properties yields one record
tagged with the first property. -/
theorem c9_dedup_witness :
    (clean_names ucdSample
        [("name", ["Vladimir"]), ("alias", ["Vladimir / Putin"])] {}).filter
        (fun r => r.text == "Vladimir")
      = [⟨"Vladimir", detect_scripts ucdSample "Vladimir", "name"⟩] :=
  c9_dedup ucdSample {} [("name", ["Vladimir"]), ("alias", ["Vladimir / Putin"])]
    "name" "Vladimir" (by decide)


set_option maxRecDepth 20000 in
/-- C7 counterexample — on the scenario entity the pipeline does NOT strip
the combining acute accents (stress marks) from the Cyrillic alias:
`_clean_names` only strips whitespace, so the second NameRecord's text is the
alias verbatim, which differs from the stress-mark-free string the claim
asserts. -/
theorem c7_counterexample :
    (processEntity ucdSample {} e1).map (fun er => er.names.map (fun nr => nr.text))
      = some ["Vladimir Putin", "Влади́мир Пу́тин"]
    ∧ ("Влади́мир Пу́тин" : String) ≠ "Владимир Путин" :=
  ⟨by rfl, by decide⟩

set_option maxRecDepth 20000 in
/-- C7 amended — the scenario entity yields exactly one EntityRecord with two
NameRecords: "Vladimir Putin" with scripts {Latin} and the Cyrillic alias
kept verbatim (combining accents retained) with scripts {Cyrillic}; pair
generation yields exactly one NamePair, of category cross_script, with
`name_a = "Vladimir Putin"`, and its `pair_id` is the first 16 hex characters
of SHA-256 of `"e1" + NUL + name_a + NUL + name_b`. -/
theorem c7_scenario (shuffle : Nat → List NamePair → List NamePair) :
    processEntity ucdSample {} e1 = some er1
    ∧ er1.names.map (fun nr => (nr.text, nr.scripts))
        = [("Vladimir Putin", ({"Latin"} : Finset String)),
           ("Влади́мир Пу́тин", ({"Cyrillic"} : Finset String))]
    ∧ generate_entity_pairs shuffle er1 {} = [pair1]
    ∧ pair1.pair_category = "cross_script"
    ∧ pair1.name_a = "Vladimir Putin"
    ∧ pair1.pair_id = strTake (sha256hex (utf8Bytes
        ("e1" ++ "\x00" ++ "Vladimir Putin" ++ "\x00" ++ "Влади́мир Пу́тин"))) 16 := by
  have hcross : byCategory er1 {} "cross_script" = [pair1] := by decide
  have hlat : byCategory er1 {} "latin_latin" = [] := by decide
  have hnon : byCategory er1 {} "non_latin" = [] := by decide
  have hone : ∀ sh : List NamePair → List NamePair,
      capTier sh [pair1] ([], (100 : Int)) = ([pair1], 99) := by
    intro sh
    unfold capTier
    rw [if_neg (by decide), if_pos (by decide)]
    simp
  have hskip : ∀ (sh : List NamePair → List NamePair) (st : List NamePair × Int),
      capTier sh ([] : List NamePair) st = st := by
    intro sh st
    unfold capTier
    rw [if_pos (Or.inl rfl)]
  refine ⟨by rfl, by rfl, ?_, by rfl, by rfl, by decide⟩
  unfold generate_entity_pairs
  rw [if_neg (by decide)]
  dsimp only
  rw [hcross, hlat, hnon, hone, hskip, hskip]

/-- Witness for C7 with the identity permutation as the generator. -/
theorem c7_scenario_witness :
    generate_entity_pairs (fun _ l => l) er1 {} = [pair1] :=
  (c7_scenario (fun _ l => l)).2.2.1

end DdFtm
